import Mathlib

/-!
Verification of the recipe component model and tree traversal from
`workato_recipe.py`.  The Python module defines a `Schema` (an ordered
field-name to type-name mapping), components (`Trigger`, `Action`,
`Recipe`), and `traverse_recipe`, which prints a header line followed by
one line per visited node carrying a global pre-order index, a dotted
path, a label and the two rendered schemas.

The embedding below translates the module's pure tree structure into
inductive types, models the printed output as a `List String` (one
element per printed line), and instruments the traversal with structured
records so statements about indices, paths and labels can be separated
from string formatting.  Aliasing behaviour of the Python list attributes
is modelled separately with an explicit heap of list objects.
-/

namespace WorkatoRecipe

/-- Schema from the source: a frozen dataclass holding `fields`, an
insertion-ordered mapping from field name to type name (a Python `dict`
preserves insertion order). -/
structure Schema where
  fields : List (String × String)
deriving DecidableEq, Repr

/-- Embedding of `Schema.__str__`: renders
`"\x7bfield: type, field: type, ...\x7d"` by joining
`f"\x7bname\x7d: \x7btype_\x7d"` pieces with `", "` over the fields in
mapping iteration (insertion) order. -/
def Schema.str (s : Schema) : String :=
  "\x7b" ++ String.intercalate ", " (s.fields.map (fun p => p.1 ++ ": " ++ p.2)) ++ "\x7d"

/-- Embedding of class `Trigger`: name, the two schemas, and a
`trigger_type` tag.  `Trigger.get_children` always returns `[]`. -/
structure Trigger where
  name : String
  input_schema : Schema
  output_schema : Schema
  trigger_type : String
deriving DecidableEq, Repr

/-- Embedding of class `Action`: name, the two schemas, an `action_type`
tag and the ordered list of nested actions. -/
inductive Action where
  | mk (name : String) (input_schema : Schema) (output_schema : Schema)
       (action_type : String) (nested_actions : List Action)

/-- Projection for the `name` attribute of an `Action`. -/
def Action.name : Action → String
  | .mk n _ _ _ _ => n

/-- Projection for the `input_schema` attribute of an `Action`. -/
def Action.input_schema : Action → Schema
  | .mk _ i _ _ _ => i

/-- Projection for the `output_schema` attribute of an `Action`. -/
def Action.output_schema : Action → Schema
  | .mk _ _ o _ _ => o

/-- Projection for the `action_type` attribute of an `Action`. -/
def Action.action_type : Action → String
  | .mk _ _ _ t _ => t

/-- Contents of `Action.get_children` (and of the `nested_actions`
read accessor): the ordered nested actions.  Both accessors in the
source return a fresh copy of the underlying list; in the pure tree
model only the contents matter, and the copy-versus-alias distinction is
modelled separately with `ListHeap` below. -/
def Action.nested_actions : Action → List Action
  | .mk _ _ _ _ ns => ns

/-- Embedding of class `Recipe`: name, the unique trigger, and the
ordered list of top-level actions. -/
structure Recipe where
  name : String
  trigger : Trigger
  actions : List Action

/-- A node as seen by `_traverse_component`, which is passed either the
recipe's trigger or an action (`RecipeComponent` is the abstract base
class in the source). -/
inductive RecipeComponent where
  | trig (t : Trigger)
  | act (a : Action)

/-- Uniform `name` attribute of a component. -/
def RecipeComponent.name : RecipeComponent → String
  | .trig t => t.name
  | .act a => a.name

/-- Uniform `input_schema` attribute of a component. -/
def RecipeComponent.input_schema : RecipeComponent → Schema
  | .trig t => t.input_schema
  | .act a => a.input_schema

/-- Uniform `output_schema` attribute of a component. -/
def RecipeComponent.output_schema : RecipeComponent → Schema
  | .trig t => t.output_schema
  | .act a => a.output_schema

/-- Embedding of `get_children`: empty for a `Trigger`, and the nested
actions for an `Action` (all children are actions). -/
def RecipeComponent.get_children : RecipeComponent → List Action
  | .trig _ => []
  | .act a => a.nested_actions

/-- Embedding of the label selection in `_traverse_component`:
`component_type = "T" if isinstance(component, Trigger) else component.name`. -/
def component_type : RecipeComponent → String
  | .trig _ => "T"
  | .act a => a.name

/-- Whether a component is a `Trigger` instance (`isinstance(c, Trigger)`). -/
def RecipeComponent.isTrig : RecipeComponent → Bool
  | .trig _ => true
  | .act _ => false

/-- Embedding of the printed record line in `_traverse_component`:
`f"(\x7bcurrent_global\x7d) \x7bnested_index\x7d: \x7bcomponent_type\x7d (input_schema=\x7b...\x7d, output_schema=\x7b...\x7d)"`,
where `nested_index` joins the path entries with `"."`. -/
def componentLine (current_global : Nat) (nested_path : List Nat) (c : RecipeComponent) : String :=
  "(" ++ toString current_global ++ ") " ++
    String.intercalate "." (nested_path.map toString) ++ ": " ++ component_type c ++
    " (input_schema=" ++ (RecipeComponent.input_schema c).str ++
    ", output_schema=" ++ (RecipeComponent.output_schema c).str ++ ")"

mutual

/-- Embedding of `_traverse_component` applied to an action: increment
the global counter, print the record line, then recurse into the
children with paths `nested_path + [i]` for `i = 1, 2, ...`.  The
mutable counter cell is modelled by threading the counter value; the
printed lines are returned in emission order. -/
def traverseAction (a : Action) (counter : Nat) (nested_path : List Nat) : Nat × List String :=
  match a with
  | .mk n ins outs ty ns =>
    let current_global := counter + 1
    let line := componentLine current_global nested_path (RecipeComponent.act (.mk n ins outs ty ns))
    let r := traverseActionList ns current_global nested_path 1
    (r.1, line :: r.2)

/-- Embedding of the child loop
`for i, child in enumerate(children, 1): _traverse_component(child, counter, nested_path + [i])`
(also reused for the top-level loop, which enumerates from 2 with an
empty base path). -/
def traverseActionList (children : List Action) (counter : Nat) (nested_path : List Nat)
    (i : Nat) : Nat × List String :=
  match children with
  | [] => (counter, [])
  | child :: rest =>
    let r1 := traverseAction child counter (nested_path ++ [i])
    let r2 := traverseActionList rest r1.1 nested_path (i + 1)
    (r2.1, r1.2 ++ r2.2)

end

/-- Embedding of `_traverse_component` for an arbitrary component: the
counter is incremented, one line is printed, and the children returned
by `get_children` are traversed in order.  For a trigger the child list
is empty, so this agrees with `traverseAction` on actions and emits a
single line on triggers. -/
def traverseComponent (c : RecipeComponent) (counter : Nat) (nested_path : List Nat) :
    Nat × List String :=
  let current_global := counter + 1
  let line := componentLine current_global nested_path c
  let r := traverseActionList (RecipeComponent.get_children c) current_global nested_path 1
  (r.1, line :: r.2)

/-- Embedding of `traverse_recipe`: print `f"Recipe: \x7brecipe.name\x7d"`,
traverse the trigger with counter 0 and path `[1]`, then traverse the
top-level actions with paths `[2], [3], ...` (`enumerate(recipe.actions, 2)`),
threading the same counter.  Each list element is one printed line. -/
def traverse_recipe (r : Recipe) : List String :=
  let t := traverseComponent (RecipeComponent.trig r.trigger) 0 [1]
  let a := traverseActionList r.actions t.1 [] 2
  ("Recipe: " ++ r.name) :: (t.2 ++ a.2)

/-- One visited node of the traversal, as structured data: the global
index assigned on visiting, the path (whose dot-joined rendering is the
printed `nested_index`), the printed label, and the two schemas that are
rendered on the line. -/
structure Record where
  globalIndex : Nat
  path : List Nat
  label : String
  input_schema : Schema
  output_schema : Schema
deriving DecidableEq, Repr

/-- Rendering of a visit record as the printed line; field for field this
is the same concatenation as `componentLine`. -/
def renderRecord (v : Record) : String :=
  "(" ++ toString v.globalIndex ++ ") " ++
    String.intercalate "." (v.path.map toString) ++ ": " ++ v.label ++
    " (input_schema=" ++ v.input_schema.str ++
    ", output_schema=" ++ v.output_schema.str ++ ")"

mutual

/-- Instrumented version of `traverseAction`: returns, instead of the
printed strings, the visited components paired with their visit records,
in emission order. -/
def visitsAction (a : Action) (counter : Nat) (nested_path : List Nat) :
    Nat × List (RecipeComponent × Record) :=
  match a with
  | .mk n ins outs ty ns =>
    let current_global := counter + 1
    let c := RecipeComponent.act (.mk n ins outs ty ns)
    let r := visitsActionList ns current_global nested_path 1
    (r.1, (c, ⟨current_global, nested_path, component_type c, ins, outs⟩) :: r.2)

/-- Instrumented version of `traverseActionList`. -/
def visitsActionList (children : List Action) (counter : Nat) (nested_path : List Nat)
    (i : Nat) : Nat × List (RecipeComponent × Record) :=
  match children with
  | [] => (counter, [])
  | child :: rest =>
    let r1 := visitsAction child counter (nested_path ++ [i])
    let r2 := visitsActionList rest r1.1 nested_path (i + 1)
    (r2.1, r1.2 ++ r2.2)

end

/-- Instrumented version of `traverseComponent`. -/
def visitsComponent (c : RecipeComponent) (counter : Nat) (nested_path : List Nat) :
    Nat × List (RecipeComponent × Record) :=
  let current_global := counter + 1
  let r := visitsActionList (RecipeComponent.get_children c) current_global nested_path 1
  (r.1, (c, ⟨current_global, nested_path, component_type c,
    RecipeComponent.input_schema c, RecipeComponent.output_schema c⟩) :: r.2)

/-- Instrumented version of `traverse_recipe`: the sequence of visited
nodes with their records, in the order their lines are printed. -/
def visits (r : Recipe) : List (RecipeComponent × Record) :=
  let t := visitsComponent (RecipeComponent.trig r.trigger) 0 [1]
  let a := visitsActionList r.actions t.1 [] 2
  t.2 ++ a.2

mutual

/-- Number of nodes of the subtree rooted at an action (the action
itself plus all transitively nested actions). -/
def Action.total : Action → Nat
  | .mk _ _ _ _ ns => 1 + totalList ns

/-- Total number of actions in a forest of action subtrees. -/
def totalList : List Action → Nat
  | [] => 0
  | a :: rest => a.total + totalList rest

end

/-- Number of nodes the traversal of a recipe should visit: the trigger
plus every action in the full nested tree. -/
def Recipe.size (r : Recipe) : Nat :=
  1 + totalList r.actions

/-- The list `[start, start+1, ..., start+count-1]`: the contiguous
sequence of `count` naturals beginning at `start`, used to state that
global indices are gapless and repeat-free. -/
def consecutive (start count : Nat) : List Nat :=
  match count with
  | 0 => []
  | k + 1 => start :: consecutive (start + 1) k

mutual

/-- Modelled from the spec (§4.2 step 7 and §8): the expected path
labels of the subtree rooted at an action placed at `p` — the node
itself has path `p`, and the i-th child (1-based, in `get_children()`
order) roots a subtree at `p ++ [i]`. -/
def specPathsAction (a : Action) (p : List Nat) : List (List Nat) :=
  match a with
  | .mk _ _ _ _ ns => p :: specPathsList ns p 1

/-- Modelled from the spec: expected paths of a forest of sibling
subtrees whose first sibling has 1-based position `i` under base path
`p`. -/
def specPathsList (as : List Action) (p : List Nat) (i : Nat) : List (List Nat) :=
  match as with
  | [] => []
  | a :: rest => specPathsAction a (p ++ [i]) ++ specPathsList rest p (i + 1)

end

/-- Modelled from the spec (§4.2 steps 2-3): the trigger has path `[1]`
and the top-level actions have paths `[2], [3], ...` in list order. -/
def specPathsRecipe (r : Recipe) : List (List Nat) :=
  [1] :: specPathsList r.actions [] 2

mutual

/-- Fuel-indexed version of `traverseAction`: each recursive visit
consumes one unit of fuel, modelling one stack frame of the Python
recursion; `none` means the recursion depth exceeded the budget.  The
source performs exactly this recursion with no depth bound of its own. -/
def traverseActionFuel (fuel : Nat) (a : Action) (counter : Nat) (nested_path : List Nat) :
    Option (Nat × List String) :=
  match fuel with
  | 0 => none
  | f + 1 =>
    match a with
    | .mk n ins outs ty ns =>
      let current_global := counter + 1
      let line := componentLine current_global nested_path (RecipeComponent.act (.mk n ins outs ty ns))
      match traverseActionListFuel f ns current_global nested_path 1 with
      | none => none
      | some r => some (r.1, line :: r.2)
termination_by (fuel, sizeOf a)

/-- Fuel-indexed version of `traverseActionList`; iterating over the
children consumes no fuel (the Python loop adds no stack frame). -/
def traverseActionListFuel (fuel : Nat) (children : List Action) (counter : Nat)
    (nested_path : List Nat) (i : Nat) : Option (Nat × List String) :=
  match children with
  | [] => some (counter, [])
  | child :: rest =>
    match traverseActionFuel fuel child counter (nested_path ++ [i]) with
    | none => none
    | some r1 =>
      match traverseActionListFuel fuel rest r1.1 nested_path (i + 1) with
      | none => none
      | some r2 => some (r2.1, r1.2 ++ r2.2)
termination_by (fuel, sizeOf children)

end

/-- Fuel-indexed version of `traverseComponent`. -/
def traverseComponentFuel (fuel : Nat) (c : RecipeComponent) (counter : Nat)
    (nested_path : List Nat) : Option (Nat × List String) :=
  match fuel with
  | 0 => none
  | f + 1 =>
    let current_global := counter + 1
    let line := componentLine current_global nested_path c
    match traverseActionListFuel f (RecipeComponent.get_children c) current_global nested_path 1 with
    | none => none
    | some r => some (r.1, line :: r.2)

/-- Fuel-indexed version of `traverse_recipe`: the recursion depth of
every visit is bounded by the fuel. -/
def traverse_recipeFuel (fuel : Nat) (r : Recipe) : Option (List String) :=
  match traverseComponentFuel fuel (RecipeComponent.trig r.trigger) 0 [1] with
  | none => none
  | some t =>
    match traverseActionListFuel fuel r.actions t.1 [] 2 with
    | none => none
    | some a => some (("Recipe: " ++ r.name) :: (t.2 ++ a.2))

/-- A component structure given by object references rather than by an
inductive tree, so that cyclic structures (a component reachable as its
own descendant) are representable: entry `n` lists the child references
returned by node `n`'s `get_children()`. -/
abbrev ComponentGraph := List (List Nat)

mutual

/-- The recursion of `_traverse_component` over a `ComponentGraph`,
exactly as the source performs it — visit the node, then recurse into
each child with path `nested_path + [i]` — with fuel standing for the
host call stack.  It returns the counter on normal completion (`none`
when the budget is exhausted mid-recursion) together with the records
`(node, global_index, path)` emitted before that point.  The source has
no cycle or depth check, so no error outcome exists besides running out
of stack. -/
def gTraverseNode (fuel : Nat) (g : ComponentGraph) (node : Nat) (counter : Nat)
    (nested_path : List Nat) : Option Nat × List (Nat × Nat × List Nat) :=
  match fuel with
  | 0 => (none, [])
  | f + 1 =>
    let current_global := counter + 1
    let children := g.getD node []
    let r := gTraverseChildren f g children current_global nested_path 1
    (r.1, (node, current_global, nested_path) :: r.2)
termination_by (fuel, 0)

/-- Child loop of `gTraverseNode`. -/
def gTraverseChildren (fuel : Nat) (g : ComponentGraph) (children : List Nat) (counter : Nat)
    (nested_path : List Nat) (i : Nat) : Option Nat × List (Nat × Nat × List Nat) :=
  match children with
  | [] => (some counter, [])
  | child :: rest =>
    let r1 := gTraverseNode fuel g child counter (nested_path ++ [i])
    match r1.1 with
    | none => (none, r1.2)
    | some k =>
      let r2 := gTraverseChildren fuel g rest k nested_path (i + 1)
      (r2.1, r1.2 ++ r2.2)
termination_by (fuel, children.length + 1)

end

/-- The smallest cyclic structure: one component whose `get_children()`
contains the component itself (in the source,
`a = Action(...); a.add_nested_action(a)`). -/
def cyclicGraph : ComponentGraph := [[0]]

/-- A heap of Python list objects: index `l` is the list object with
reference `l`, holding references (to action objects, say) as its
elements.  This models which `list` object an attribute holds, which the
pure tree model cannot express. -/
abbrev ListHeap := List (List Nat)

/-- Dereference a list object. -/
def heapGet (s : ListHeap) (l : Nat) : List Nat :=
  s.getD l []

/-- Allocate a fresh list object with the given contents (its reference
is distinct from every existing one). -/
def heapAlloc (s : ListHeap) (v : List Nat) : Nat × ListHeap :=
  (s.length, s ++ [v])

/-- `lst.append(x)` on the list object `l`: mutates that object in
place. -/
def heapAppend (s : ListHeap) (l : Nat) (x : Nat) : ListHeap :=
  s.set l (heapGet s l ++ [x])

/-- `list(lst)` / `lst.copy()`: allocate a fresh list object with the
same contents. -/
def heapCopy (s : ListHeap) (l : Nat) : Nat × ListHeap :=
  heapAlloc s (heapGet s l)

/-- The identity-relevant state of an `Action` object: the reference
held by its `_nested_actions` attribute. -/
structure ActionObj where
  nestedRef : Nat
deriving DecidableEq, Repr

/-- The identity-relevant state of a `Recipe` object: the reference held
by its `_actions` attribute. -/
structure RecipeObj where
  actionsRef : Nat
deriving DecidableEq, Repr

/-- Embedding of `Action.__init__`'s child-list handling:
`self._nested_actions = nested_actions or []`.  `None` and an empty list
are falsy, so those cases install a freshly allocated empty list; a
non-empty argument is stored as the very same list object. -/
def actionObjInit (s : ListHeap) (nested_actions : Option Nat) : ActionObj × ListHeap :=
  match nested_actions with
  | none =>
    let r := heapAlloc s []
    (⟨r.1⟩, r.2)
  | some l =>
    if heapGet s l = [] then
      let r := heapAlloc s []
      (⟨r.1⟩, r.2)
    else (⟨l⟩, s)

/-- Embedding of `Recipe.__init__`'s action-list handling:
`self._actions = actions or []` (same semantics as `actionObjInit`). -/
def recipeObjInit (s : ListHeap) (actions : Option Nat) : RecipeObj × ListHeap :=
  match actions with
  | none =>
    let r := heapAlloc s []
    (⟨r.1⟩, r.2)
  | some l =>
    if heapGet s l = [] then
      let r := heapAlloc s []
      (⟨r.1⟩, r.2)
    else (⟨l⟩, s)

/-- Embedding of `Action.add_nested_action`:
`self._nested_actions.append(action)`. -/
def ActionObj.add_nested_action (s : ListHeap) (a : ActionObj) (x : Nat) : ListHeap :=
  heapAppend s a.nestedRef x

/-- Embedding of the `Action.nested_actions` property:
`return self._nested_actions.copy()` — a fresh list object. -/
def ActionObj.nested_actions (s : ListHeap) (a : ActionObj) : Nat × ListHeap :=
  heapCopy s a.nestedRef

/-- Embedding of `Action.get_children`:
`return list(self._nested_actions)` — a fresh list object. -/
def ActionObj.get_children (s : ListHeap) (a : ActionObj) : Nat × ListHeap :=
  heapCopy s a.nestedRef

/-- Embedding of `Recipe.add_action`: `self._actions.append(action)`. -/
def RecipeObj.add_action (s : ListHeap) (r : RecipeObj) (x : Nat) : ListHeap :=
  heapAppend s r.actionsRef x

/-- Embedding of the `Recipe.actions` property:
`return self._actions.copy()` — a fresh list object. -/
def RecipeObj.actions (s : ListHeap) (r : RecipeObj) : Nat × ListHeap :=
  heapCopy s r.actionsRef

/-- Modelled from the spec (§4.2 step 5): the canonical short type
names. -/
def recognizedType (t : String) : Bool :=
  t = "string" || t = "number" || t = "boolean" || t = "object" || t = "datetime"

/-- Modelled from the spec (§7): a schema is well-formed when no field
name is empty, no field name is duplicated, and every type name is
recognized.  The source performs no such check anywhere. -/
def specSchemaWellFormed (s : Schema) : Bool :=
  s.fields.all (fun p => !(p.1 = "") && recognizedType p.2) &&
    decide (s.fields.map Prod.fst).Nodup

/-- The empty schema `Schema(\x7b\x7d)`. -/
def emptySchema : Schema := ⟨[]⟩

/-- A trigger whose stored name is not `"T"`. -/
def trigNamedMyTrig : Trigger := ⟨"MyTrig", emptySchema, emptySchema, "cron"⟩

/-- An action whose stored name is the string `"T"`. -/
def actionNamedT : Action := .mk "T" emptySchema emptySchema "step" []

/-- A recipe whose trigger is named `"MyTrig"` and whose single top-level
action is named `"T"`. -/
def recipeWithActionNamedT : Recipe := ⟨"R", trigNamedMyTrig, [actionNamedT]⟩

/-- A schema that violates every well-formedness rule of the spec's
`InvalidSchemaError`: its only field has an empty name and an
unrecognized type name. -/
def invalidSchema : Schema := ⟨[("", "bogus")]⟩

/-- A recipe whose trigger carries `invalidSchema` on both sides;
the source constructs and traverses it without complaint. -/
def recipeWithInvalidSchema : Recipe := ⟨"R", ⟨"Trig", invalidSchema, invalidSchema, "cron"⟩, []⟩

/-- A small sample recipe: a trigger plus one action with one nested
action, used as a concrete input for witnesses. -/
def sampleRecipe : Recipe :=
  ⟨"Sample", ⟨"T", ⟨[("schedule", "string")]⟩, ⟨[("timestamp", "datetime")]⟩, "cron"⟩,
    [.mk "A1" ⟨[("data", "object")]⟩ ⟨[("result", "string")]⟩ "work"
      [.mk "A1.1" ⟨[("value", "number")]⟩ ⟨[("processed", "number")]⟩ "calc" []]]⟩

/-- What the read accessors guarantee on a heap `s`: `get_children`,
`nested_actions` and `actions` hand back a list object distinct from the
stored one and holding the same contents; appending to the returned copy
leaves the stored children unchanged; `add_nested_action` / `add_action`
append to the stored children. -/
def readAccessorsIsolated (s : ListHeap) (a : ActionObj) (r : RecipeObj) (x : Nat) : Prop :=
  heapGet (ActionObj.get_children s a).2 (ActionObj.get_children s a).1 = heapGet s a.nestedRef ∧
  (ActionObj.get_children s a).1 ≠ a.nestedRef ∧
  heapGet (heapAppend (ActionObj.get_children s a).2 (ActionObj.get_children s a).1 x)
      a.nestedRef = heapGet s a.nestedRef ∧
  heapGet (heapAppend (ActionObj.nested_actions s a).2 (ActionObj.nested_actions s a).1 x)
      a.nestedRef = heapGet s a.nestedRef ∧
  heapGet (heapAppend (RecipeObj.actions s r).2 (RecipeObj.actions s r).1 x)
      r.actionsRef = heapGet s r.actionsRef ∧
  heapGet (ActionObj.add_nested_action s a x) a.nestedRef = heapGet s a.nestedRef ++ [x] ∧
  heapGet (RecipeObj.add_action s r x) r.actionsRef = heapGet s r.actionsRef ++ [x]

/-- How the constructors treat a caller-supplied list object `l`: a
non-empty list is stored as that very object (so appending to the
caller's list afterwards changes what `get_children` reads); an empty
list — like `None` — is replaced by a freshly allocated independent
empty list. -/
def constructorAliasing (s : ListHeap) (l x : Nat) : Prop :=
  (heapGet s l ≠ [] →
    actionObjInit s (some l) = (⟨l⟩, s) ∧
    recipeObjInit s (some l) = (⟨l⟩, s) ∧
    heapGet (ActionObj.get_children (heapAppend s l x) (actionObjInit s (some l)).1).2
        (ActionObj.get_children (heapAppend s l x) (actionObjInit s (some l)).1).1 =
      heapGet s l ++ [x]) ∧
  (heapGet s l = [] →
    (actionObjInit s (some l)).1.nestedRef ≠ l ∧
    (recipeObjInit s (some l)).1.actionsRef ≠ l ∧
    heapGet (heapAppend (actionObjInit s (some l)).2 l x)
      (actionObjInit s (some l)).1.nestedRef = []) ∧
  ((actionObjInit s none).1.nestedRef = s.length ∧ (actionObjInit s none).2 = s ++ [[]]) ∧
  ((recipeObjInit s none).1.actionsRef = s.length ∧ (recipeObjInit s none).2 = s ++ [[]])

/-! Helper lemmas shared by the claim theorems. -/

theorem consecutive_append (s m n : Nat) :
    consecutive s (m + n) = consecutive s m ++ consecutive (s + m) n := by
  induction m generalizing s with
  | zero => simp [consecutive]
  | succ k ih =>
    have h1 : k + 1 + n = (k + n) + 1 := by omega
    have h2 : s + (k + 1) = (s + 1) + k := by omega
    rw [h1]
    simp only [consecutive, ih (s + 1), h2, List.cons_append]

theorem componentLine_eq_render (k : Nat) (p : List Nat) (c : RecipeComponent) :
    componentLine k p c =
      renderRecord ⟨k, p, component_type c, RecipeComponent.input_schema c,
        RecipeComponent.output_schema c⟩ := rfl

theorem traverseActionList_eq_visits :
    ∀ (children : List Action) (counter : Nat) (nested_path : List Nat) (i : Nat),
      traverseActionList children counter nested_path i =
        ((visitsActionList children counter nested_path i).1,
         (visitsActionList children counter nested_path i).2.map (fun q => renderRecord q.2)) := by
  apply traverseActionList.induct
    (fun a counter nested_path =>
      traverseAction a counter nested_path =
        ((visitsAction a counter nested_path).1,
         (visitsAction a counter nested_path).2.map (fun q => renderRecord q.2)))
    (fun children counter nested_path i =>
      traverseActionList children counter nested_path i =
        ((visitsActionList children counter nested_path i).1,
         (visitsActionList children counter nested_path i).2.map (fun q => renderRecord q.2)))
  · intro counter nested_path n ins outs ty ns cg h
    simp only [traverseAction, visitsAction, h, List.map_cons]
    rfl
  · intro counter nested_path i
    simp [traverseActionList, visitsActionList]
  · intro counter nested_path i child rest
    dsimp only
    intro h1 h2
    simp only [traverseActionList, visitsActionList, h1] at h2 ⊢
    simp [h2, List.map_append]

theorem traverseAction_eq_visits (a : Action) (counter : Nat) (nested_path : List Nat) :
    traverseAction a counter nested_path =
      ((visitsAction a counter nested_path).1,
       (visitsAction a counter nested_path).2.map (fun q => renderRecord q.2)) := by
  cases a with
  | mk n ins outs ty ns =>
    simp only [traverseAction, visitsAction, traverseActionList_eq_visits, List.map_cons]
    rfl

theorem traverseComponent_eq_visits (c : RecipeComponent) (counter : Nat) (nested_path : List Nat) :
    traverseComponent c counter nested_path =
      ((visitsComponent c counter nested_path).1,
       (visitsComponent c counter nested_path).2.map (fun q => renderRecord q.2)) := by
  simp only [traverseComponent, visitsComponent, traverseActionList_eq_visits, List.map_cons]
  rfl

theorem traverse_recipe_eq_visits (r : Recipe) :
    traverse_recipe r = ("Recipe: " ++ r.name) :: (visits r).map (fun q => renderRecord q.2) := by
  simp only [traverse_recipe, visits, traverseComponent_eq_visits, traverseActionList_eq_visits,
    List.map_append]

theorem visitsActionList_count :
    ∀ (children : List Action) (counter : Nat) (nested_path : List Nat) (i : Nat),
      (visitsActionList children counter nested_path i).1 = counter + totalList children ∧
      (visitsActionList children counter nested_path i).2.map (fun q => q.2.globalIndex) =
        consecutive (counter + 1) (totalList children) := by
  apply visitsActionList.induct
    (fun a counter nested_path =>
      (visitsAction a counter nested_path).1 = counter + a.total ∧
      (visitsAction a counter nested_path).2.map (fun q => q.2.globalIndex) =
        consecutive (counter + 1) a.total)
    (fun children counter nested_path i =>
      (visitsActionList children counter nested_path i).1 = counter + totalList children ∧
      (visitsActionList children counter nested_path i).2.map (fun q => q.2.globalIndex) =
        consecutive (counter + 1) (totalList children))
  · intro counter nested_path n ins outs ty ns cg h
    simp only [visitsAction, Action.total, h.1, List.map_cons, h.2]
    constructor
    · omega
    · have h3 : 1 + totalList ns = totalList ns + 1 := by omega
      simp [consecutive, h3]
  · intro counter nested_path i
    simp [visitsActionList, totalList, consecutive]
  · intro counter nested_path i child rest
    dsimp only
    intro h1 h2
    rw [h1.1] at h2
    simp only [visitsActionList, List.map_append, h1.1, h1.2, h2.1, h2.2, totalList]
    constructor
    · omega
    · rw [consecutive_append (counter + 1) child.total (totalList rest)]
      have h4 : counter + 1 + Action.total child = counter + Action.total child + 1 := by omega
      rw [h4]

theorem visitsActionList_paths :
    ∀ (children : List Action) (counter : Nat) (nested_path : List Nat) (i : Nat),
      (visitsActionList children counter nested_path i).2.map (fun q => q.2.path) =
        specPathsList children nested_path i := by
  apply visitsActionList.induct
    (fun a counter nested_path =>
      (visitsAction a counter nested_path).2.map (fun q => q.2.path) =
        specPathsAction a nested_path)
    (fun children counter nested_path i =>
      (visitsActionList children counter nested_path i).2.map (fun q => q.2.path) =
        specPathsList children nested_path i)
  · intro counter nested_path n ins outs ty ns cg h
    simp only [visitsAction, specPathsAction, List.map_cons, h]
  · intro counter nested_path i
    simp [visitsActionList, specPathsList]
  · intro counter nested_path i child rest r1 h1 h2
    simp only [visitsActionList, specPathsList, List.map_append, h1, h2]

theorem visitsActionList_labels :
    ∀ (children : List Action) (counter : Nat) (nested_path : List Nat) (i : Nat),
      ∀ q ∈ (visitsActionList children counter nested_path i).2,
        ∃ b, q.1 = RecipeComponent.act b ∧ q.2.label = b.name := by
  apply visitsActionList.induct
    (fun a counter nested_path =>
      ∀ q ∈ (visitsAction a counter nested_path).2,
        ∃ b, q.1 = RecipeComponent.act b ∧ q.2.label = b.name)
    (fun children counter nested_path i =>
      ∀ q ∈ (visitsActionList children counter nested_path i).2,
        ∃ b, q.1 = RecipeComponent.act b ∧ q.2.label = b.name)
  · intro counter nested_path n ins outs ty ns cg h q hq
    simp only [visitsAction, List.mem_cons] at hq
    rcases hq with hq | hq
    · subst hq
      exact ⟨.mk n ins outs ty ns, rfl, rfl⟩
    · exact h q hq
  · intro counter nested_path i q hq
    simp [visitsActionList] at hq
  · intro counter nested_path i child rest r1 h1 h2 q hq
    simp only [visitsActionList, List.mem_append] at hq
    rcases hq with hq | hq
    · exact h1 q hq
    · exact h2 q hq

theorem visits_eq (r : Recipe) :
    visits r = (RecipeComponent.trig r.trigger,
        ⟨1, [1], "T", r.trigger.input_schema, r.trigger.output_schema⟩) ::
      (visitsActionList r.actions 1 [] 2).2 := by
  simp [visits, visitsComponent, RecipeComponent.get_children, visitsActionList, component_type,
    RecipeComponent.input_schema, RecipeComponent.output_schema]

theorem consecutive_length (s n : Nat) : (consecutive s n).length = n := by
  induction n generalizing s with
  | zero => simp [consecutive]
  | succ k ih => simp [consecutive, ih]

theorem traverseActionListFuel_eq :
    ∀ (children : List Action) (counter : Nat) (nested_path : List Nat) (i : Nat),
      ∀ fuel, totalList children ≤ fuel →
        traverseActionListFuel fuel children counter nested_path i =
          some (traverseActionList children counter nested_path i) := by
  apply traverseActionList.induct
    (fun a counter nested_path => ∀ fuel, a.total ≤ fuel →
      traverseActionFuel fuel a counter nested_path =
        some (traverseAction a counter nested_path))
    (fun children counter nested_path i => ∀ fuel, totalList children ≤ fuel →
      traverseActionListFuel fuel children counter nested_path i =
        some (traverseActionList children counter nested_path i))
  · intro counter nested_path n ins outs ty ns
    dsimp only
    intro h fuel hf
    rw [Action.total] at hf
    cases fuel with
    | zero => omega
    | succ f =>
      simp only [traverseActionFuel, traverseAction, h f (by omega)]
  · intro counter nested_path i fuel hf
    simp [traverseActionListFuel, traverseActionList]
  · intro counter nested_path i child rest
    dsimp only
    intro h1 h2 fuel hf
    rw [totalList] at hf
    have hc : 1 ≤ Action.total child := by
      cases child with
      | mk n ins outs ty ns => rw [Action.total]; omega
    simp only [traverseActionListFuel, traverseActionList, h1 fuel (by omega),
      h2 fuel (by omega)]

theorem traverseComponentFuel_eq (c : RecipeComponent) (counter : Nat) (nested_path : List Nat)
    (fuel : Nat) (h : 1 + totalList (RecipeComponent.get_children c) ≤ fuel) :
    traverseComponentFuel fuel c counter nested_path =
      some (traverseComponent c counter nested_path) := by
  cases fuel with
  | zero => omega
  | succ f =>
    simp only [traverseComponentFuel, traverseComponent,
      traverseActionListFuel_eq (RecipeComponent.get_children c) (counter + 1) nested_path 1 f
        (by omega)]

theorem gTraverseNode_cyclic_fst :
    ∀ (fuel counter : Nat) (nested_path : List Nat),
      (gTraverseNode fuel cyclicGraph 0 counter nested_path).1 = none := by
  intro fuel
  induction fuel with
  | zero =>
    intro counter nested_path
    simp [gTraverseNode]
  | succ f ih =>
    intro counter nested_path
    have hg : cyclicGraph.getD 0 [] = [0] := rfl
    simp only [gTraverseNode, hg, gTraverseChildren, ih (counter + 1) (nested_path ++ [1])]

theorem heapGet_alloc_lt (s : ListHeap) (v : List Nat) (l : Nat) (h : l < s.length) :
    heapGet (heapAlloc s v).2 l = heapGet s l := by
  simp [heapGet, heapAlloc, List.getD_eq_getElem?_getD, List.getElem?_append_left h]

theorem heapGet_alloc_self (s : ListHeap) (v : List Nat) :
    heapGet (heapAlloc s v).2 (heapAlloc s v).1 = v := by
  simp [heapGet, heapAlloc, List.getD_eq_getElem?_getD,
    List.getElem?_append_right (Nat.le_refl s.length)]

theorem heapGet_append_ne (s : ListHeap) (l l2 x : Nat) (h : l ≠ l2) :
    heapGet (heapAppend s l x) l2 = heapGet s l2 := by
  simp [heapGet, heapAppend, List.getD_eq_getElem?_getD, List.getElem?_set_ne h]

theorem heapGet_append_self (s : ListHeap) (l x : Nat) (h : l < s.length) :
    heapGet (heapAppend s l x) l = heapGet s l ++ [x] := by
  simp [heapGet, heapAppend, List.getD_eq_getElem?_getD, List.getElem?_set_eq_of_lt _ h]

theorem heapAppend_length (s : ListHeap) (l x : Nat) :
    (heapAppend s l x).length = s.length := by
  simp [heapAppend]

/-! Claim theorems. -/

/-- Claim C1, counterexample: in `recipeWithActionNamedT` the trigger is
stored under the name `"MyTrig"` yet is printed as `"T"`, and the
top-level action — which is not the trigger, and not even a `Trigger`
instance — is also printed with label `"T"`, because its own stored name
is the string `"T"`.  So a printed label of `"T"` does not imply that
the node is the recipe's trigger: the stated biconditional fails. -/
theorem claim_C1_counterexample :
    Trigger.name (Recipe.trigger recipeWithActionNamedT) = "MyTrig" ∧
    (visits recipeWithActionNamedT).map (fun q => (q.2.label, RecipeComponent.isTrig q.1)) =
      [("T", true), ("T", false)] ∧
    traverse_recipe recipeWithActionNamedT =
      ["Recipe: R",
       "(1) 1: T (input_schema=\x7b\x7d, output_schema=\x7b\x7d)",
       "(2) 2: T (input_schema=\x7b\x7d, output_schema=\x7b\x7d)"] := by
  decide

/-- Claim C1, amended: every visited node that is a `Trigger` instance
is the recipe's trigger and is labeled `"T"` regardless of its stored
name; every visited `Action` is labeled with its own stored name.  (The
label `"T"` therefore does not identify the trigger: an action whose
stored name is `"T"` prints the same label, as the counterexample
shows.) -/
theorem claim_C1 :
    ∀ (r : Recipe) (k : Nat) (c : RecipeComponent) (v : Record),
      (visits r)[k]? = some (c, v) →
      (∀ t, c = RecipeComponent.trig t → t = r.trigger ∧ v.label = "T") ∧
      (∀ b, c = RecipeComponent.act b → v.label = b.name) := by
  intro r k c v h
  rw [visits_eq] at h
  cases k with
  | zero =>
    rw [List.getElem?_cons_zero, Option.some.injEq, Prod.mk.injEq] at h
    obtain ⟨hc, hv⟩ := h
    constructor
    · intro t ht
      rw [ht] at hc
      cases hc
      exact ⟨rfl, by rw [← hv]⟩
    · intro b hb
      rw [hb] at hc
      cases hc
  | succ k =>
    rw [List.getElem?_cons_succ] at h
    have hmem : (c, v) ∈ (visitsActionList r.actions 1 [] 2).2 := List.getElem?_mem h
    obtain ⟨b, hb1, hb2⟩ := visitsActionList_labels r.actions 1 [] 2 (c, v) hmem
    constructor
    · intro t ht
      rw [ht] at hb1
      cases hb1
    · intro b2 hb3
      rw [hb3] at hb1
      cases hb1
      exact hb2

/-- Claim C1, witness: the amended theorem applied to the visited node
at position 1 of `recipeWithActionNamedT`, the action named `"T"`. -/
theorem claim_C1_witness :
    (visits recipeWithActionNamedT)[1]? =
      some (RecipeComponent.act actionNamedT, ⟨2, [2], "T", emptySchema, emptySchema⟩) ∧
    ((∀ t, RecipeComponent.act actionNamedT = RecipeComponent.trig t →
        t = recipeWithActionNamedT.trigger ∧
          Record.label ⟨2, [2], "T", emptySchema, emptySchema⟩ = "T") ∧
     (∀ b, RecipeComponent.act actionNamedT = RecipeComponent.act b →
        Record.label ⟨2, [2], "T", emptySchema, emptySchema⟩ = b.name)) :=
  ⟨rfl, claim_C1 recipeWithActionNamedT 1 (RecipeComponent.act actionNamedT)
    ⟨2, [2], "T", emptySchema, emptySchema⟩ rfl⟩

/-- Claim C2: the traversal visits exactly `1 + total number of actions
in the full nested tree` nodes; the global indices on the visit records
are exactly the contiguous sequence `1..N` in emission order (no gaps,
no repeats); and `traverse_recipe` emits exactly one line per visited
node after the header. -/
theorem claim_C2 (r : Recipe) :
    (visits r).length = Recipe.size r ∧
    (visits r).map (fun q => q.2.globalIndex) = consecutive 1 (Recipe.size r) ∧
    (traverse_recipe r).length = 1 + (visits r).length := by
  have hc := visitsActionList_count r.actions 1 [] 2
  have hlen : (visitsActionList r.actions 1 [] 2).2.length = totalList r.actions := by
    have h2 := congrArg List.length hc.2
    rwa [List.length_map, consecutive_length] at h2
  refine ⟨?_, ?_, ?_⟩
  · rw [visits_eq, List.length_cons, hlen, Recipe.size]
    omega
  · rw [visits_eq, List.map_cons, hc.2, Recipe.size]
    have h3 : 1 + totalList r.actions = totalList r.actions + 1 := by omega
    rw [h3]
    rfl
  · rw [traverse_recipe_eq_visits, List.length_cons, List.length_map]
    omega

/-- Claim C3: the trigger is visited first with global index 1 and path
`[1]` (printed `"1"`), the top-level actions receive paths `[2], [3], ...`
in list order, and the i-th child (1-based, in `get_children()` order)
of any visited action with path `p` receives path `p ++ [i]` — the
visit paths are exactly `specPathsRecipe`. -/
theorem claim_C3 (r : Recipe) :
    (visits r).map (fun q => q.2.path) = specPathsRecipe r ∧
    (visits r).head?.map (fun q => q.2.globalIndex) = some 1 ∧
    (visits r).head?.map (fun q => q.2.path) = some [1] := by
  refine ⟨?_, ?_, ?_⟩
  · rw [visits_eq, List.map_cons, visitsActionList_paths, specPathsRecipe]
  · rw [visits_eq]
    rfl
  · rw [visits_eq]
    rfl

/-- Claim C4: the output of `traverse_recipe` is exactly the header line
`"Recipe: " ++ name` followed by, for each visited node in traversal
order, exactly the line `renderRecord` builds from that node's record:
`(<global_index>) <dotted.path>: <label> (input_schema=<formatted>, output_schema=<formatted>)`. -/
theorem claim_C4 (r : Recipe) :
    traverse_recipe r = ("Recipe: " ++ r.name) :: (visits r).map (fun q => renderRecord q.2) :=
  traverse_recipe_eq_visits r

/-- Claim C5: `Schema.__str__` renders fields in mapping insertion
order: the schema built by inserting `"b": "number"` then
`"a": "string"` renders with `"b"` before `"a"` (character index 1
versus 12), the swapped insertion order renders swapped, and the two
renderings differ. -/
theorem claim_C5 :
    Schema.str ⟨[("b", "number"), ("a", "string")]⟩ = "\x7bb: number, a: string\x7d" ∧
    Schema.str ⟨[("a", "string"), ("b", "number")]⟩ = "\x7ba: string, b: number\x7d" ∧
    ("\x7bb: number, a: string\x7d".toList.indexOf 'b' <
      "\x7bb: number, a: string\x7d".toList.indexOf 'a') ∧
    Schema.str ⟨[("b", "number"), ("a", "string")]⟩ ≠
      Schema.str ⟨[("a", "string"), ("b", "number")]⟩ := by
  decide

/-- Claim C6: the source traversal has no cycle or depth guard.  On the
one-node cycle (`a.add_nested_action(a)`) the recursion never completes
for any stack budget — it raises no cycle-detected error; with budget 3
it simply visits the same node three times, emitting a record each time,
revisiting a node already on the ancestor path without failing there. -/
theorem claim_C6 :
    (∀ (fuel counter : Nat) (nested_path : List Nat),
      (gTraverseNode fuel cyclicGraph 0 counter nested_path).1 = none) ∧
    gTraverseNode 3 cyclicGraph 0 0 [1] =
      (none, [(0, 1, [1]), (0, 2, [1, 1]), (0, 3, [1, 1, 1])]) := by
  refine ⟨gTraverseNode_cyclic_fst, ?_⟩
  simp [gTraverseNode, gTraverseChildren, cyclicGraph]

/-- Claim C7, counterexample: `invalidSchema` violates the spec's
well-formedness rules (empty field name, unrecognized type name), yet a
trigger carrying it is constructed without any error and the recipe
traverses to completion, rendering the invalid schema verbatim: nothing
is rejected at construction time. -/
theorem claim_C7_counterexample :
    specSchemaWellFormed invalidSchema = false ∧
    traverse_recipe recipeWithInvalidSchema =
      ["Recipe: R",
       "(1) 1: T (input_schema=\x7b: bogus\x7d, output_schema=\x7b: bogus\x7d)"] := by
  decide

/-- Claim C7, amended: construction performs no schema validation at
all — a component built from any fields list, well-formed or not, is
accepted, and the traversal renders it; no `InvalidSchemaError` exists
anywhere in the code. -/
theorem claim_C7 (fields : List (String × String)) (nm ty : String) :
    traverse_recipe ⟨"R", ⟨nm, ⟨fields⟩, ⟨fields⟩, ty⟩, []⟩ =
      ["Recipe: R", componentLine 1 [1] (RecipeComponent.trig ⟨nm, ⟨fields⟩, ⟨fields⟩, ty⟩)] := by
  simp [traverse_recipe, traverseComponent, RecipeComponent.get_children, traverseActionList]

/-- Claim C8: on a finite tree the traversal terminates — with any stack
budget of at least the number of tree nodes, the fuel-indexed recursion
completes and computes exactly `traverse_recipe`. -/
theorem claim_C8 (r : Recipe) (fuel : Nat) (h : Recipe.size r ≤ fuel) :
    traverse_recipeFuel fuel r = some (traverse_recipe r) := by
  rw [Recipe.size] at h
  have h1 : traverseComponentFuel fuel (RecipeComponent.trig r.trigger) 0 [1] =
      some (traverseComponent (RecipeComponent.trig r.trigger) 0 [1]) := by
    apply traverseComponentFuel_eq
    simp only [RecipeComponent.get_children, totalList]
    omega
  have h2 := traverseActionListFuel_eq r.actions
    (traverseComponent (RecipeComponent.trig r.trigger) 0 [1]).1 [] 2 fuel (by omega)
  simp only [traverse_recipeFuel, h1, h2, traverse_recipe]

/-- Claim C8, witness: the theorem applied to `sampleRecipe` (3 nodes)
with budget 5. -/
theorem claim_C8_witness :
    Recipe.size sampleRecipe ≤ 5 ∧
    traverse_recipeFuel 5 sampleRecipe = some (traverse_recipe sampleRecipe) :=
  ⟨by decide, claim_C8 sampleRecipe 5 (by decide)⟩

/-- Claim C9, counterexample: the "only way to change a component's
children is through add_nested_action / add_action" part of the claim is
false.  Constructing an action from the caller's non-empty list object 0
stores that very object, so the caller's own `append` on their list —
not an `add_nested_action` call — changes the component's children from
`[7]` to `[7, 9]`. -/
theorem claim_C9_counterexample :
    actionObjInit [[7]] (some 0) = (⟨0⟩, [[7]]) ∧
    heapGet [[7]] 0 = [7] ∧
    heapGet (heapAppend [[7]] 0 9) ((actionObjInit [[7]] (some 0)).1.nestedRef) = [7, 9] := by
  decide

/-- Claim C9, amended: `get_children()`, the `nested_actions` accessor
and the `actions` accessor each return a fresh copy of the ordered child
list — a list object distinct from the stored one with the same
contents — so mutating the returned list leaves the component's own
children unchanged, while `add_nested_action` / `add_action` append to
them.  (A caller-supplied non-empty constructor list remains aliased,
however, so the accessor copies are not the only protection needed —
see the counterexample.) -/
theorem claim_C9 (s : ListHeap) (a : ActionObj) (r : RecipeObj) (x : Nat)
    (ha : a.nestedRef < s.length) (hr : r.actionsRef < s.length) :
    readAccessorsIsolated s a r x := by
  have hnea : s.length ≠ a.nestedRef := by omega
  have hner : s.length ≠ r.actionsRef := by omega
  simp only [readAccessorsIsolated, ActionObj.get_children, ActionObj.nested_actions,
    RecipeObj.actions, ActionObj.add_nested_action, RecipeObj.add_action, heapCopy]
  refine ⟨heapGet_alloc_self s (heapGet s a.nestedRef), ?_, ?_, ?_, ?_,
    heapGet_append_self s a.nestedRef x ha, heapGet_append_self s r.actionsRef x hr⟩
  · simp only [heapAlloc]
    omega
  · rw [show (heapAlloc s (heapGet s a.nestedRef)).1 = s.length from rfl,
      heapGet_append_ne _ _ _ _ hnea, heapGet_alloc_lt s _ _ ha]
  · rw [show (heapAlloc s (heapGet s a.nestedRef)).1 = s.length from rfl,
      heapGet_append_ne _ _ _ _ hnea, heapGet_alloc_lt s _ _ ha]
  · rw [show (heapAlloc s (heapGet s r.actionsRef)).1 = s.length from rfl,
      heapGet_append_ne _ _ _ _ hner, heapGet_alloc_lt s _ _ hr]

/-- Claim C9, witness: the amended theorem applied to a heap with two
list objects, an action holding object 0 and a recipe holding object 1. -/
theorem claim_C9_witness :
    ActionObj.nestedRef ⟨0⟩ < List.length ([[1], [2]] : ListHeap) ∧
    RecipeObj.actionsRef ⟨1⟩ < List.length ([[1], [2]] : ListHeap) ∧
    readAccessorsIsolated [[1], [2]] ⟨0⟩ ⟨1⟩ 5 :=
  ⟨by decide, by decide, claim_C9 [[1], [2]] ⟨0⟩ ⟨1⟩ 5 (by decide) (by decide)⟩

/-- Claim C10: `Action.__init__` / `Recipe.__init__` store a non-empty
caller-supplied list object as-is (the `or []` fallback only fires on
`None` and on an empty — falsy — list), so mutating the caller's list
afterwards changes what `get_children` reads; an empty or absent
argument installs a freshly allocated, independent empty list. -/
theorem claim_C10 (s : ListHeap) (l x : Nat) (h : l < s.length) : constructorAliasing s l x := by
  refine ⟨?_, ?_, ?_, ?_⟩
  · intro hne
    have hinit : actionObjInit s (some l) = (⟨l⟩, s) := by
      simp [actionObjInit, hne]
    have hinit2 : recipeObjInit s (some l) = (⟨l⟩, s) := by
      simp [recipeObjInit, hne]
    refine ⟨hinit, hinit2, ?_⟩
    rw [hinit]
    simp only [ActionObj.get_children, heapCopy]
    rw [heapGet_alloc_self]
    exact heapGet_append_self s l x h
  · intro hemp
    have hinit : actionObjInit s (some l) = (⟨s.length⟩, s ++ [[]]) := by
      simp [actionObjInit, hemp, heapAlloc]
    have hinit2 : recipeObjInit s (some l) = (⟨s.length⟩, s ++ [[]]) := by
      simp [recipeObjInit, hemp, heapAlloc]
    refine ⟨by rw [hinit]; simp; omega, by rw [hinit2]; simp; omega, ?_⟩
    rw [hinit]
    have hne2 : l ≠ s.length := by omega
    rw [show (⟨s.length⟩ : ActionObj).nestedRef = s.length from rfl,
      heapGet_append_ne _ _ _ _ hne2]
    exact heapGet_alloc_self s []
  · exact ⟨rfl, rfl⟩
  · exact ⟨rfl, rfl⟩

/-- Claim C10, witness: the theorem applied to a heap with one non-empty
list object and the caller appending 9 to it. -/
theorem claim_C10_witness :
    0 < List.length ([[7]] : ListHeap) ∧ constructorAliasing [[7]] 0 9 :=
  ⟨by decide, claim_C10 [[7]] 0 9 (by decide)⟩

end WorkatoRecipe
